import Mathlib

/-!
Verification development for the LiveTesserae collaborative mosaic.

The frontend utilities (chunk coordinates, subscription diffing, tile fetching,
URL construction, the pixel-editor flood fill) are embedded directly from the
TypeScript source.  The backend core (tile store, render scheduler) is not part
of the source tree; where a claim depends on it, the corresponding definitions
are modelled from the specification and are marked as such.
-/

namespace LiveTesserae

/-- Mosaic configuration constants from the frontend config module. -/
def GRID_WIDTH : Nat := 1000

/-- Grid height in tiles, from the frontend config module. -/
def GRID_HEIGHT : Nat := 1000

/-- Pixel side length of a tile, from the frontend config module. -/
def TILE_SIZE : Nat := 32

/-- Tile side length of a chunk, from the frontend config module. -/
def CHUNK_SIZE : Nat := 100

/-- getChunkId from the chunks utility module: chunk id string of a tile
coordinate, floor-dividing each coordinate by the chunk size. -/
def getChunkId (tileX tileY : Nat) : String :=
  toString (tileX / CHUNK_SIZE) ++ ":" ++ toString (tileY / CHUNK_SIZE)

/-- Field names declared by the interface TileUpdateMessage in the frontend
types module: the type tag, the tile coordinates, and the inline image data. -/
def TileUpdateMessageFields : List String := ["type", "x", "y", "image"]

/-- Type tags of the variants of the server-to-client message union
WebSocketServerMessage in the frontend types module. -/
def WebSocketServerMessageTags : List String := ["tile_update"]

/-- An HTTP response as seen by the frontend fetch calls: status code and body. -/
structure Response where
  status : Nat
  body : String
deriving DecidableEq

/-- The ok flag of a fetch response: status in the range 200 to 299. -/
def Response.ok (r : Response) : Bool := 200 ≤ r.status && r.status < 300

/-- getTileImage from the tiles API module: null (none) on status 404, the body
blob on an ok status, a thrown error (modelled as Except.error) otherwise. -/
def getTileImage (r : Response) : Except String (Option String) :=
  if r.status = 404 then Except.ok none
  else if !r.ok then Except.error ("Failed to get tile: " ++ toString r.status)
  else Except.ok (some r.body)

/-- TileLoader.fetchTile from the tile loader module: the same status handling
as getTileImage, with the body blob converted to a data URL by the given
reader function. -/
def fetchTile (readAsDataURL : String → String) (r : Response) :
    Except String (Option String) :=
  if r.status = 404 then Except.ok none
  else if !r.ok then Except.error ("Failed to get tile: " ++ toString r.status)
  else Except.ok (some (readAsDataURL r.body))

/-- getChunkImageUrl from the chunks API module.  The version query parameter
is appended only when the version argument is present and nonzero, mirroring
the conditional template in the source (a zero version is falsy there). -/
def getChunkImageUrl (baseUrl : String) (cx cy : Nat) (version : Option Nat) :
    String :=
  let versionParam := match version with
    | some v => if v = 0 then "" else "?v=" ++ toString v
    | none => ""
  baseUrl ++ "/api/chunks/" ++ toString cx ++ "/" ++ toString cy ++ versionParam

/-- getMosaicOverviewUrl from the chunks API module, with the same conditional
version parameter as getChunkImageUrl. -/
def getMosaicOverviewUrl (baseUrl : String) (version : Option Nat) : String :=
  let versionParam := match version with
    | some v => if v = 0 then "" else "?v=" ++ toString v
    | none => ""
  baseUrl ++ "/api/chunks/overview" ++ versionParam

/-- diffChunkSubscriptions from the chunks utility module: the chunks to
subscribe are the new chunks not currently subscribed, and the chunks to
unsubscribe are the current ones that are no longer in the new set. -/
def diffChunkSubscriptions (currentChunks newChunks : List String) :
    List String × List String :=
  let subscribe := newChunks.filter (fun c => !currentChunks.contains c)
  let unsubscribe := currentChunks.filter (fun c => !newChunks.contains c)
  (subscribe, unsubscribe)

/-- Modelled from the spec: the per-chunk state machine of the Render
Scheduler component, which is missing from the source tree (only the chunks
table schema declares its dirty flag and version column). -/
inductive RenderState where
  | clean
  | dirty
  | rendering
  | dirtyWhileRendering
deriving DecidableEq

/-- Modelled from the spec: the markDirty transition of the Render Scheduler:
a clean chunk becomes dirty, a rendering chunk records the edit as
dirty-while-rendering, and the two dirty states absorb further calls. -/
def markDirty : RenderState → RenderState
  | RenderState.clean => RenderState.dirty
  | RenderState.dirty => RenderState.dirty
  | RenderState.rendering => RenderState.dirtyWhileRendering
  | RenderState.dirtyWhileRendering => RenderState.dirtyWhileRendering

/-- Actions a scheduler run can perform on a chunk. -/
inductive SchedulerAction where
  | startRender
  | renderComplete
deriving DecidableEq

/-- Modelled from the spec: one quiescent scheduler step (no further edits
arriving): a dirty chunk starts a render; a completing render leaves the chunk
clean, or dirty again when edits arrived while it was rendering. -/
def schedulerStep : RenderState → Option (SchedulerAction × RenderState)
  | RenderState.clean => none
  | RenderState.dirty =>
      some (SchedulerAction.startRender, RenderState.rendering)
  | RenderState.rendering =>
      some (SchedulerAction.renderComplete, RenderState.clean)
  | RenderState.dirtyWhileRendering =>
      some (SchedulerAction.renderComplete, RenderState.dirty)

/-- Ordering rank of a render state used to show a quiescent run terminates. -/
def RenderState.rank : RenderState → Nat
  | RenderState.clean => 0
  | RenderState.rendering => 1
  | RenderState.dirty => 2
  | RenderState.dirtyWhileRendering => 3

/-- Modelled from the spec: the actions a quiescent scheduler performs until
the chunk is clean, following schedulerStep. -/
def drain : RenderState → List SchedulerAction
  | RenderState.clean => []
  | RenderState.dirty =>
      SchedulerAction.startRender :: drain RenderState.rendering
  | RenderState.rendering =>
      SchedulerAction.renderComplete :: drain RenderState.clean
  | RenderState.dirtyWhileRendering =>
      SchedulerAction.renderComplete :: drain RenderState.dirty
termination_by s => s.rank
decreasing_by all_goals decide

/-- Modelled from the spec: events affecting one chunk: a tile write inside
the chunk's region, a render start, and a render completion. -/
inductive ChunkEvent where
  | tileWritten
  | startRender
  | renderComplete
deriving DecidableEq

/-- Modelled from the spec: the scheduler-owned per-chunk record: the render
state-machine state and the composite's version counter (version 0 before the
first render, per the chunks table default). -/
structure ChunkState where
  rs : RenderState
  version : Nat
deriving DecidableEq

/-- The initial chunk state: clean, version 0. -/
def initialChunkState : ChunkState := ⟨RenderState.clean, 0⟩

/-- Modelled from the spec: one event applied to a chunk: a write marks it
dirty, a render may start only on a dirty chunk, and a completing render
commits the new composite by bumping the version, moving the chunk to clean,
or back to dirty when writes arrived while it was rendering. -/
def applyEvent (s : ChunkState) : ChunkEvent → Option ChunkState
  | ChunkEvent.tileWritten => some ⟨markDirty s.rs, s.version⟩
  | ChunkEvent.startRender =>
      if s.rs = RenderState.dirty then some ⟨RenderState.rendering, s.version⟩
      else none
  | ChunkEvent.renderComplete =>
      if s.rs = RenderState.rendering then
        some ⟨RenderState.clean, s.version + 1⟩
      else if s.rs = RenderState.dirtyWhileRendering then
        some ⟨RenderState.dirty, s.version + 1⟩
      else none

/-- Run a chunk event trace from a given state, failing on invalid steps. -/
def runEventsFrom (s : ChunkState) : List ChunkEvent → Option ChunkState
  | [] => some s
  | e :: rest =>
      match applyEvent s e with
      | some s2 => runEventsFrom s2 rest
      | none => none

/-- Run a chunk event trace from the initial state. -/
def runEvents (t : List ChunkEvent) : Option ChunkState :=
  runEventsFrom initialChunkState t

/-- History-side counter: first component is the number of tile writes not yet
reflected in a completed render, second is how many of those are covered by
the render currently in flight (a completing render clears exactly those). -/
def pendingFrom (p : Nat × Nat) : List ChunkEvent → Nat × Nat
  | [] => p
  | ChunkEvent.tileWritten :: rest => pendingFrom (p.1 + 1, p.2) rest
  | ChunkEvent.startRender :: rest => pendingFrom (p.1, p.1) rest
  | ChunkEvent.renderComplete :: rest => pendingFrom (p.1 - p.2, 0) rest

/-- The number of tile writes in the trace not yet reflected in a completed
render of the chunk. -/
def pendingWrites (t : List ChunkEvent) : Nat := (pendingFrom (0, 0) t).1

/-- Modelled from the spec: the dirty flag recorded for a chunk (the chunks
table dirty column): the chunk is dirty in every state other than clean. -/
def ChunkState.dirtyFlag (s : ChunkState) : Bool :=
  decide (s.rs ≠ RenderState.clean)

/-- The invariant tying a chunk's render state to the history counter. -/
def PendingInv (s : ChunkState) (p : Nat × Nat) : Prop :=
  match s.rs with
  | RenderState.clean => p.1 = 0 ∧ p.2 = 0
  | RenderState.dirty => 0 < p.1 ∧ p.2 = 0
  | RenderState.rendering => p.1 = p.2 ∧ 0 < p.2
  | RenderState.dirtyWhileRendering => p.2 < p.1 ∧ 0 < p.2

/-- A stored tile record, modelled from the spec: the image bytes, the version
counter, and the last-updated timestamp. -/
structure TileRecord where
  imageBytes : List Nat
  version : Nat
  updatedAt : Nat
deriving DecidableEq

/-- Modelled from the spec: the Tile Store's authoritative state, a record per
edited tile and nothing for tiles at default (the Tile Store component is
missing from the source tree; only the tiles table schema and the frontend
callers are present). -/
abbrev TileStore := Nat × Nat → Option TileRecord

/-- The empty store: every tile at default. -/
def emptyStore : TileStore := fun _ => none

/-- Point update of a tile store. -/
def updateStore (s : TileStore) (k : Nat × Nat) (v : Option TileRecord) :
    TileStore :=
  fun k2 => if k2 = k then v else s k2

/-- Errors surfaced synchronously by the Tile Store. -/
inductive TileError where
  | invalidImage
deriving DecidableEq

/-- Downstream effects triggered by a mutating Tile Store call: marking the
owning chunk dirty, and the broadcast carrying the new version or none. -/
inductive Effect where
  | markDirtyChunk (c : Nat × Nat)
  | broadcast (x y : Nat) (newVersion : Option Nat)
deriving DecidableEq

/-- Modelled from the spec: Tile Store put.  Validates that the bytes decode
to exactly TILE_SIZE by TILE_SIZE pixels (the raster decoder is a parameter),
persists the bytes, increments the version initializing at 1 if absent,
records the updated timestamp, computes the owning chunk coordinate, and
triggers the dirty marking and the broadcast for downstream fan-out. -/
def put (decode : List Nat → Option (Nat × Nat)) (x y : Nat)
    (imageBytes : List Nat) (now : Nat) (s : TileStore) :
    Except TileError (TileStore × Nat × (Nat × Nat) × List Effect) :=
  match decode imageBytes with
  | none => Except.error TileError.invalidImage
  | some (w, h) =>
    if w = TILE_SIZE ∧ h = TILE_SIZE then
      let newVersion := match s (x, y) with
        | some r => r.version + 1
        | none => 1
      let chunk := (x / CHUNK_SIZE, y / CHUNK_SIZE)
      Except.ok (updateStore s (x, y) (some ⟨imageBytes, newVersion, now⟩),
        newVersion, chunk,
        [Effect.markDirtyChunk chunk, Effect.broadcast x y (some newVersion)])
    else Except.error TileError.invalidImage

/-- Modelled from the spec: Tile Store get: the current record, or none as the
not-found signal when the tile is at default. -/
def getTile (s : TileStore) (x y : Nat) : Option TileRecord := s (x, y)

/-- Outcome reported by a Tile Store delete. -/
inductive DeleteResult where
  | deleted
  | noop
deriving DecidableEq

/-- Modelled from the spec: Tile Store delete: removes the record if present
and reports whether a deletion actually occurred; only an actual deletion
dirties the owning chunk and triggers the delete broadcast. -/
def deleteTile (x y : Nat) (s : TileStore) :
    TileStore × DeleteResult × List Effect :=
  match s (x, y) with
  | none => (s, DeleteResult.noop, [])
  | some _ =>
      let chunk := (x / CHUNK_SIZE, y / CHUNK_SIZE)
      (updateStore s (x, y) none, DeleteResult.deleted,
        [Effect.markDirtyChunk chunk, Effect.broadcast x y none])

/-- The version a tile had before a write: its record's version, 0 if absent. -/
def prevVersion (s : TileStore) (x y : Nat) : Nat :=
  match s (x, y) with
  | some r => r.version
  | none => 0

/-- The editor canvas side length in pixels: the tile size. -/
def CANVAS_SIZE : Int := (TILE_SIZE : Int)

/-- An RGB color, as the flood fill compares pixels: the red, green and blue
channels (the alpha channel, which the fill never compares and always writes
as 255, is omitted). -/
structure RGB where
  r : Nat
  g : Nat
  b : Nat
deriving DecidableEq

/-- The pixel grid of the 32 by 32 editor canvas, indexed like the image data
array; the loop bounds-checks before every read. -/
abbrev Grid := Int × Int → RGB

/-- The bounds check of the flood-fill loop. -/
def inBounds (p : Int × Int) : Bool :=
  decide (0 ≤ p.1) && decide (p.1 < CANVAS_SIZE) &&
    decide (0 ≤ p.2) && decide (p.2 < CANVAS_SIZE)

/-- The four neighbor positions the flood-fill loop pushes for a popped
position, listed in the order the stack pops them afterwards. -/
def neighbors (p : Int × Int) : List (Int × Int) :=
  [(p.1, p.2 - 1), (p.1, p.2 + 1), (p.1 - 1, p.2), (p.1 + 1, p.2)]

/-- All in-bounds cells of the editor canvas. -/
def cellBox : Finset (Int × Int) :=
  Finset.Icc 0 (CANVAS_SIZE - 1) ×ˢ Finset.Icc 0 (CANVAS_SIZE - 1)

/-- The flood-fill worklist loop from the pixel canvas hook: pop a position;
skip it when already visited, out of bounds, or not matching the target
color; otherwise mark it visited, recolor it with the fill color, and push
its four neighbors.  Returns the final grid and the visited set. -/
def floodLoop (target fillColor : RGB) (g : Grid)
    (visited : Finset (Int × Int)) (stack : List (Int × Int)) :
    Grid × Finset (Int × Int) :=
  match stack with
  | [] => (g, visited)
  | p :: rest =>
    if hv : p ∈ visited then floodLoop target fillColor g visited rest
    else if hb : inBounds p = true then
      if hm : g p ≠ target then floodLoop target fillColor g visited rest
      else
        floodLoop target fillColor (fun q => if q = p then fillColor else g q)
          (insert p visited) (neighbors p ++ rest)
    else floodLoop target fillColor g visited rest
termination_by ((cellBox \ visited).card, stack.length)
decreasing_by
· apply Prod.Lex.right
  simp
· apply Prod.Lex.right
  simp
· apply Prod.Lex.left
  apply Finset.card_lt_card
  have hp : p ∈ cellBox := by
    simp only [inBounds, Bool.and_eq_true, decide_eq_true_eq] at hb
    simp only [cellBox, Finset.mem_product, Finset.mem_Icc, Prod.mk_le_mk]
    constructor <;> constructor <;> omega
  have hsub : cellBox \ insert p visited ⊆ cellBox \ visited := by
    intro q hq
    simp only [Finset.mem_sdiff, Finset.mem_insert] at hq ⊢
    exact ⟨hq.1, fun hmem => hq.2 (Or.inr hmem)⟩
  refine (Finset.ssubset_iff_of_subset hsub).mpr ⟨p, ?_, ?_⟩
  · simp [Finset.mem_sdiff, hp, hv]
  · simp
· apply Prod.Lex.right
  simp

/-- floodFill from the pixel canvas hook: bounds-check the start position,
read the target color there, do nothing when it already equals the fill
color, and otherwise run the worklist loop from the start position.  The
loop's termination is witnessed by this being a total function. -/
def floodFill (g : Grid) (startX startY : Int) (fillColor : RGB) : Grid :=
  if inBounds (startX, startY) = true then
    if g (startX, startY) = fillColor then g
    else (floodLoop (g (startX, startY)) fillColor g ∅ [(startX, startY)]).1
  else g

/-- The 4-connected same-color region of the start pixel: positions reachable
from the start by steps to 4-neighbors, staying on in-bounds pixels whose
color in the grid equals the target color. -/
inductive Reach (g : Grid) (target : RGB) (s : Int × Int) : Int × Int → Prop
  | start (h1 : inBounds s = true) (h2 : g s = target) : Reach g target s s
  | step {p q : Int × Int} (hp : Reach g target s p) (hadj : q ∈ neighbors p)
      (h1 : inBounds q = true) (h2 : g q = target) : Reach g target s q

/-- Invariant of the flood-fill loop relative to the original grid g0: the
current grid is g0 recolored on the visited set; every in-bounds target
neighbor of a visited cell is visited or on the stack; every visited cell is
in the start's region; and every in-bounds target cell on the stack is in the
start's region. -/
def LoopInv (g0 : Grid) (target fillColor : RGB) (s : Int × Int) (g : Grid)
    (visited : Finset (Int × Int)) (stack : List (Int × Int)) : Prop :=
  (∀ q, g q = if q ∈ visited then fillColor else g0 q) ∧
  (∀ c ∈ visited, ∀ n ∈ neighbors c, inBounds n = true → g0 n = target →
    n ∈ visited ∨ n ∈ stack) ∧
  (∀ c ∈ visited, Reach g0 target s c) ∧
  (∀ q ∈ stack, inBounds q = true → g0 q = target → Reach g0 target s q)

/-- Postcondition of the flood-fill loop: the final grid is g0 recolored on
the final visited set, which contains the initial visited set and every
in-bounds target cell of the stack, is closed under in-bounds target
neighbors, and consists only of cells of the start's region. -/
def LoopPost (g0 : Grid) (target fillColor : RGB) (s : Int × Int)
    (res : Grid × Finset (Int × Int))
    (visited : Finset (Int × Int)) (stack : List (Int × Int)) : Prop :=
  (∀ q, res.1 q = if q ∈ res.2 then fillColor else g0 q) ∧
  visited ⊆ res.2 ∧
  (∀ q ∈ stack, inBounds q = true → g0 q = target → q ∈ res.2) ∧
  (∀ c ∈ res.2, ∀ n ∈ neighbors c, inBounds n = true → g0 n = target →
    n ∈ res.2) ∧
  (∀ c ∈ res.2, Reach g0 target s c)

theorem drain_dirty :
    drain RenderState.dirty =
      [SchedulerAction.startRender, SchedulerAction.renderComplete] := by
  simp [drain]

theorem markDirty_iterate_absorb (m : Nat) :
    markDirty^[m] RenderState.dirtyWhileRendering =
      RenderState.dirtyWhileRendering := by
  induction m with
  | zero => rfl
  | succ k ih => rw [Function.iterate_succ_apply, markDirty, ih]

theorem pendingInv_preserved (t : List ChunkEvent) :
    ∀ (s0 : ChunkState) (p0 : Nat × Nat) (s : ChunkState),
      PendingInv s0 p0 → runEventsFrom s0 t = some s →
      PendingInv s (pendingFrom p0 t) := by
  induction t with
  | nil =>
    intro s0 p0 s hinv hrun
    simp [runEventsFrom] at hrun
    subst hrun
    simpa [pendingFrom] using hinv
  | cons e rest ih =>
    intro s0 p0 s hinv hrun
    simp only [runEventsFrom] at hrun
    cases e with
    | tileWritten =>
      simp only [applyEvent] at hrun
      refine ih _ (p0.1 + 1, p0.2) s ?_ hrun
      cases h : s0.rs <;>
        simp [PendingInv, h, markDirty] <;>
        simp [PendingInv, h] at hinv <;> omega
    | startRender =>
      simp only [applyEvent] at hrun
      by_cases h : s0.rs = RenderState.dirty
      · simp only [h, if_pos rfl] at hrun
        refine ih _ (p0.1, p0.1) s ?_ hrun
        simp [PendingInv, h] at hinv
        simp [PendingInv]
        omega
      · simp [h] at hrun
    | renderComplete =>
      simp only [applyEvent] at hrun
      by_cases h1 : s0.rs = RenderState.rendering
      · simp only [h1, if_pos rfl] at hrun
        refine ih _ (p0.1 - p0.2, 0) s ?_ hrun
        simp [PendingInv, h1] at hinv
        simp [PendingInv]
        omega
      · by_cases h2 : s0.rs = RenderState.dirtyWhileRendering
        · simp only [h1, h2, if_neg, if_pos rfl] at hrun
          refine ih _ (p0.1 - p0.2, 0) s ?_ hrun
          simp [PendingInv, h2] at hinv
          simp [PendingInv]
          omega
        · simp [h1, h2] at hrun

theorem mem_cellBox_of_inBounds {p : Int × Int} (h : inBounds p = true) :
    p ∈ cellBox := by
  simp only [inBounds, Bool.and_eq_true, decide_eq_true_eq] at h
  simp only [cellBox, Finset.mem_product, Finset.mem_Icc]
  constructor <;> constructor <;> omega

theorem card_sdiff_insert_lt {p : Int × Int} {visited : Finset (Int × Int)}
    (hp : p ∈ cellBox) (hnv : p ∉ visited) :
    (cellBox \ insert p visited).card < (cellBox \ visited).card := by
  apply Finset.card_lt_card
  have hsub : cellBox \ insert p visited ⊆ cellBox \ visited := by
    intro q hq
    simp only [Finset.mem_sdiff, Finset.mem_insert] at hq ⊢
    exact ⟨hq.1, fun hmem => hq.2 (Or.inr hmem)⟩
  refine (Finset.ssubset_iff_of_subset hsub).mpr ⟨p, ?_, ?_⟩
  · simp [Finset.mem_sdiff, hp, hnv]
  · simp

theorem floodLoop_post (g0 : Grid) (target fillColor : RGB) (s : Int × Int) :
    ∀ (k : Nat) (visited : Finset (Int × Int)) (stack : List (Int × Int))
      (g : Grid),
      (cellBox \ visited).card ≤ k →
      LoopInv g0 target fillColor s g visited stack →
      LoopPost g0 target fillColor s
        (floodLoop target fillColor g visited stack) visited stack := by
  intro k
  induction k using Nat.strong_induction_on with
  | _ k ihk =>
  intro visited stack
  induction stack with
  | nil =>
    intro g hk hinv
    obtain ⟨H1, H5, H6, H7⟩ := hinv
    simp only [floodLoop]
    exact ⟨H1, Finset.Subset.refl _, fun q hq => absurd hq (List.not_mem_nil q),
      fun c hc n hn hbn hg0n => (H5 c hc n hn hbn hg0n).resolve_right
        (List.not_mem_nil n), H6⟩
  | cons p rest ihr =>
    intro g hk hinv
    obtain ⟨H1, H5, H6, H7⟩ := hinv
    simp only [floodLoop]
    by_cases hv : p ∈ visited
    · rw [dif_pos hv]
      have hpost := ihr g hk ⟨H1, ?_, H6, ?_⟩
      · obtain ⟨P1, P2, P3, P4, P5⟩ := hpost
        refine ⟨P1, P2, ?_, P4, P5⟩
        intro q hq hbq hg0q
        rcases List.mem_cons.mp hq with hq | hq
        · exact P2 (hq ▸ hv)
        · exact P3 q hq hbq hg0q
      · intro c hc n hn hbn hg0n
        rcases H5 c hc n hn hbn hg0n with h | h
        · exact Or.inl h
        · rcases List.mem_cons.mp h with h | h
          · exact Or.inl (h ▸ hv)
          · exact Or.inr h
      · intro q hq hbq hg0q
        exact H7 q (List.mem_cons_of_mem p hq) hbq hg0q
    · rw [dif_neg hv]
      by_cases hb : inBounds p = true
      · rw [dif_pos hb]
        have hgp : g p = g0 p := by
          have := H1 p
          rwa [if_neg hv] at this
        by_cases hm : g p ≠ target
        · rw [dif_pos hm]
          have hg0p : ¬ g0 p = target := by rw [← hgp]; exact hm
          have hpost := ihr g hk ⟨H1, ?_, H6, ?_⟩
          · obtain ⟨P1, P2, P3, P4, P5⟩ := hpost
            refine ⟨P1, P2, ?_, P4, P5⟩
            intro q hq hbq hg0q
            rcases List.mem_cons.mp hq with hq | hq
            · exact absurd (hq ▸ hg0q) hg0p
            · exact P3 q hq hbq hg0q
          · intro c hc n hn hbn hg0n
            rcases H5 c hc n hn hbn hg0n with h | h
            · exact Or.inl h
            · rcases List.mem_cons.mp h with h | h
              · exact absurd (h ▸ hg0n) hg0p
              · exact Or.inr h
          · intro q hq hbq hg0q
            exact H7 q (List.mem_cons_of_mem p hq) hbq hg0q
        · rw [dif_neg hm]
          have hg0p : g0 p = target := by
            rw [← hgp]
            exact not_not.mp hm
          have hreachp : Reach g0 target s p :=
            H7 p (List.mem_cons_self p rest) hb hg0p
          have hcard : (cellBox \ insert p visited).card < k :=
            Nat.lt_of_lt_of_le
              (card_sdiff_insert_lt (mem_cellBox_of_inBounds hb) hv) hk
          have hpost := ihk (cellBox \ insert p visited).card hcard
            (insert p visited) (neighbors p ++ rest)
            (fun q => if q = p then fillColor else g q)
            (Nat.le_refl _) ⟨?_, ?_, ?_, ?_⟩
          · obtain ⟨P1, P2, P3, P4, P5⟩ := hpost
            refine ⟨P1, ?_, ?_, P4, P5⟩
            · exact Finset.Subset.trans (Finset.subset_insert p visited) P2
            · intro q hq hbq hg0q
              rcases List.mem_cons.mp hq with hq | hq
              · exact P2 (hq ▸ Finset.mem_insert_self p visited)
              · exact P3 q (List.mem_append_right _ hq) hbq hg0q
          · intro q
            by_cases hq : q = p
            · subst hq
              simp
            · simp only [if_neg hq, Finset.mem_insert, hq, false_or]
              exact H1 q
          · intro c hc n hn hbn hg0n
            rcases Finset.mem_insert.mp hc with hc | hc
            · exact Or.inr (List.mem_append_left rest (hc ▸ hn))
            · rcases H5 c hc n hn hbn hg0n with h | h
              · exact Or.inl (Finset.mem_insert_of_mem h)
              · rcases List.mem_cons.mp h with h | h
                · exact Or.inl (h ▸ Finset.mem_insert_self p visited)
                · exact Or.inr (List.mem_append_right _ h)
          · intro c hc
            rcases Finset.mem_insert.mp hc with hc | hc
            · exact hc ▸ hreachp
            · exact H6 c hc
          · intro q hq hbq hg0q
            rcases List.mem_append.mp hq with hq | hq
            · exact Reach.step hreachp hq hbq hg0q
            · exact H7 q (List.mem_cons_of_mem p hq) hbq hg0q
      · rw [dif_neg hb]
        have hpost := ihr g hk ⟨H1, ?_, H6, ?_⟩
        · obtain ⟨P1, P2, P3, P4, P5⟩ := hpost
          refine ⟨P1, P2, ?_, P4, P5⟩
          intro q hq hbq hg0q
          rcases List.mem_cons.mp hq with hq | hq
          · exact absurd (hq ▸ hbq) hb
          · exact P3 q hq hbq hg0q
        · intro c hc n hn hbn hg0n
          rcases H5 c hc n hn hbn hg0n with h | h
          · exact Or.inl h
          · rcases List.mem_cons.mp h with h | h
            · exact absurd (h ▸ hbn) hb
            · exact Or.inr h
        · intro q hq hbq hg0q
          exact H7 q (List.mem_cons_of_mem p hq) hbq hg0q

/-- C3: for every tile coordinate inside the 1000 by 1000 grid, getChunkId maps
the tile to the chunk obtained by floor division by 100 on each coordinate,
encoded as the string "cx:cy"; in particular tile (512, 384) is in chunk "5:3". -/
theorem getChunkId_floor_div (x y : Nat) (hx : x < 1000) (hy : y < 1000) :
    getChunkId x y = toString (x / 100) ++ ":" ++ toString (y / 100) ∧
    getChunkId 512 384 = "5:3" :=
  ⟨rfl, rfl⟩

/-- Witness for getChunkId_floor_div at tile (512, 384). -/
theorem getChunkId_floor_div_witness :
    512 < 1000 ∧ 384 < 1000 ∧
    getChunkId 512 384 = toString (512 / 100) ++ ":" ++ toString (384 / 100) :=
  ⟨by decide, by decide, (getChunkId_floor_div 512 384 (by decide) (by decide)).1⟩

/-- C4 counterexample: the tile-update message type declared by the client does
not carry a chunkId field nor a version field, and the server-to-client union
declares neither a chunk-ready nor an overview-ready message kind. -/
theorem tileUpdateMessage_missing_declarations :
    ¬(("chunkId" ∈ TileUpdateMessageFields ∧ "version" ∈ TileUpdateMessageFields) ∧
      ("chunk_ready" ∈ WebSocketServerMessageTags ∨
        "overview_ready" ∈ WebSocketServerMessageTags)) := by
  decide

/-- C4 amended: the client's tile-update message type declares the tile
coordinates x and y and the inline-encoded raster image (with its type tag),
but no chunkId and no version field, and the server-to-client message union
declares only the tile-update kind, with no chunk-ready or overview-ready
notifications. -/
theorem tileUpdateMessage_declarations :
    "x" ∈ TileUpdateMessageFields ∧ "y" ∈ TileUpdateMessageFields ∧
    "image" ∈ TileUpdateMessageFields ∧ "type" ∈ TileUpdateMessageFields ∧
    "chunkId" ∉ TileUpdateMessageFields ∧ "version" ∉ TileUpdateMessageFields ∧
    WebSocketServerMessageTags = ["tile_update"] := by
  decide

/-- C5: getTileImage and TileLoader.fetchTile answer null (none) exactly when
the server answers status 404, and raise an error exactly for the other non-ok
statuses; on an ok status they return the body. -/
theorem getTileImage_notFound (readAsDataURL : String → String) (r : Response) :
    (getTileImage r = Except.ok none ↔ r.status = 404) ∧
    ((∃ e, getTileImage r = Except.error e) ↔ r.status ≠ 404 ∧ r.ok = false) ∧
    (r.ok = true → getTileImage r = Except.ok (some r.body)) ∧
    (fetchTile readAsDataURL r = Except.ok none ↔ r.status = 404) ∧
    ((∃ e, fetchTile readAsDataURL r = Except.error e) ↔
      r.status ≠ 404 ∧ r.ok = false) := by
  have h404 : r.status = 404 → r.ok = false := by
    intro h
    simp [Response.ok, h]
  constructor
  · unfold getTileImage
    split
    · simp [*]
    · split <;> simp_all
  constructor
  · unfold getTileImage
    split
    · simp_all
    · split <;> simp_all
  constructor
  · intro hok
    unfold getTileImage
    split
    · exact absurd (h404 (by assumption)) (by simp [hok])
    · simp [hok]
  constructor
  · unfold fetchTile
    split
    · simp [*]
    · split <;> simp_all
  · unfold fetchTile
    split
    · simp_all
    · split <;> simp_all

/-- Witness for getTileImage_notFound at a concrete ok response. -/
theorem getTileImage_notFound_witness :
    (Response.mk 200 "blob").ok = true ∧
    getTileImage (Response.mk 200 "blob") = Except.ok (some "blob") :=
  ⟨by decide,
    (getTileImage_notFound id (Response.mk 200 "blob")).2.2.1 (by decide)⟩

/-- C8 counterexample: at version 0 the chunk image URL and the overview URL
carry no version suffix at all, so the version is not embedded in the key. -/
theorem getChunkImageUrl_version_zero :
    getChunkImageUrl "http://localhost:8000" 5 3 (some 0) =
      "http://localhost:8000/api/chunks/5/3" ∧
    getChunkImageUrl "http://localhost:8000" 5 3 (some 0) ≠
      "http://localhost:8000/api/chunks/5/3" ++ "?v=" ++ toString (0 : Nat) ∧
    getMosaicOverviewUrl "http://localhost:8000" (some 0) =
      "http://localhost:8000/api/chunks/overview" := by
  refine ⟨by decide, by decide, by decide⟩

/-- C8 amended: for every chunk coordinate and every nonzero version, the chunk
image URL embeds the version as the suffix "?v=" followed by the version, and
the overview URL likewise; a version of 0 (or an absent version) produces no
suffix because the source's conditional treats it as falsy. -/
theorem getChunkImageUrl_embeds_version (baseUrl : String) (cx cy v : Nat)
    (hv : 0 < v) :
    getChunkImageUrl baseUrl cx cy (some v) =
      baseUrl ++ "/api/chunks/" ++ toString cx ++ "/" ++ toString cy ++
        ("?v=" ++ toString v) ∧
    getMosaicOverviewUrl baseUrl (some v) =
      baseUrl ++ "/api/chunks/overview" ++ ("?v=" ++ toString v) := by
  have h : ¬ v = 0 := Nat.pos_iff_ne_zero.mp hv
  constructor
  · simp [getChunkImageUrl, h]
  · simp [getMosaicOverviewUrl, h]

/-- Witness for getChunkImageUrl_embeds_version at version 42. -/
theorem getChunkImageUrl_embeds_version_witness :
    0 < 42 ∧
    getChunkImageUrl "http://localhost:8000" 5 3 (some 42) =
      "http://localhost:8000" ++ "/api/chunks/" ++ toString (5 : Nat) ++ "/" ++
        toString (3 : Nat) ++ ("?v=" ++ toString (42 : Nat)) :=
  ⟨by decide,
    (getChunkImageUrl_embeds_version "http://localhost:8000" 5 3 42 (by decide)).1⟩

/-- C9: diffChunkSubscriptions returns as subscribe exactly the new chunks not
currently subscribed and as unsubscribe exactly the current chunks no longer
wanted; the two lists are disjoint, and removing the unsubscribe list from the
current chunks and adding the subscribe list yields exactly the new chunk set. -/
theorem diffChunkSubscriptions_spec (currentChunks newChunks : List String) :
    (∀ x, x ∈ (diffChunkSubscriptions currentChunks newChunks).1 ↔
      x ∈ newChunks ∧ x ∉ currentChunks) ∧
    (∀ x, x ∈ (diffChunkSubscriptions currentChunks newChunks).2 ↔
      x ∈ currentChunks ∧ x ∉ newChunks) ∧
    (∀ x, ¬(x ∈ (diffChunkSubscriptions currentChunks newChunks).1 ∧
      x ∈ (diffChunkSubscriptions currentChunks newChunks).2)) ∧
    (∀ x, ((x ∈ currentChunks ∧
        x ∉ (diffChunkSubscriptions currentChunks newChunks).2) ∨
      x ∈ (diffChunkSubscriptions currentChunks newChunks).1) ↔ x ∈ newChunks) := by
  have hsub : ∀ x, x ∈ (diffChunkSubscriptions currentChunks newChunks).1 ↔
      x ∈ newChunks ∧ x ∉ currentChunks := by
    intro x
    simp [diffChunkSubscriptions, List.mem_filter]
  have hunsub : ∀ x, x ∈ (diffChunkSubscriptions currentChunks newChunks).2 ↔
      x ∈ currentChunks ∧ x ∉ newChunks := by
    intro x
    simp [diffChunkSubscriptions, List.mem_filter]
  refine ⟨hsub, hunsub, ?_, ?_⟩
  · intro x hx
    rcases hx with ⟨h1, h2⟩
    exact ((hsub x).mp h1).2 ((hunsub x).mp h2).1
  · intro x
    rw [hsub x, hunsub x]
    by_cases hc : x ∈ currentChunks <;> by_cases hn : x ∈ newChunks <;>
      simp [hc, hn]

/-- C1: within grid bounds, for every image whose bytes decode to exactly 32
by 32 pixels, put persists the bytes so that get returns them unchanged, and
the version returned by put is exactly one greater than the tile's previous
version, initializing at 1 on the first write; the owning chunk coordinate is
returned alongside. -/
theorem put_get_roundtrip (decode : List Nat → Option (Nat × Nat)) (x y : Nat)
    (imageBytes : List Nat) (now : Nat) (s : TileStore)
    (hx : x < 1000) (hy : y < 1000)
    (hdec : decode imageBytes = some (TILE_SIZE, TILE_SIZE)) :
    ∃ s2,
      put decode x y imageBytes now s =
        Except.ok (s2, prevVersion s x y + 1,
          (x / CHUNK_SIZE, y / CHUNK_SIZE),
          [Effect.markDirtyChunk (x / CHUNK_SIZE, y / CHUNK_SIZE),
            Effect.broadcast x y (some (prevVersion s x y + 1))]) ∧
      getTile s2 x y = some ⟨imageBytes, prevVersion s x y + 1, now⟩ := by
  refine ⟨updateStore s (x, y)
    (some ⟨imageBytes, prevVersion s x y + 1, now⟩), ?_, ?_⟩
  · cases h : s (x, y) <;>
      simp [put, hdec, prevVersion, h]
  · simp [getTile, updateStore]

/-- Witness for put_get_roundtrip at tile (512, 384) on the empty store. -/
theorem put_get_roundtrip_witness :
    (512 : Nat) < 1000 ∧ (384 : Nat) < 1000 ∧
    (fun _ : List Nat => some (TILE_SIZE, TILE_SIZE)) [1, 2, 3] =
      some (TILE_SIZE, TILE_SIZE) ∧
    ∃ s2,
      put (fun _ => some (TILE_SIZE, TILE_SIZE)) 512 384 [1, 2, 3] 7
          emptyStore =
        Except.ok (s2, prevVersion emptyStore 512 384 + 1,
          (512 / CHUNK_SIZE, 384 / CHUNK_SIZE),
          [Effect.markDirtyChunk (512 / CHUNK_SIZE, 384 / CHUNK_SIZE),
            Effect.broadcast 512 384 (some (prevVersion emptyStore 512 384 + 1))]) ∧
      getTile s2 512 384 = some ⟨[1, 2, 3], prevVersion emptyStore 512 384 + 1, 7⟩ :=
  ⟨by decide, by decide, rfl,
    put_get_roundtrip (fun _ => some (TILE_SIZE, TILE_SIZE)) 512 384 [1, 2, 3]
      7 emptyStore (by decide) (by decide) rfl⟩

/-- C2: markDirty is idempotent in the dirty and dirty-while-rendering states,
and any burst of N further markDirty calls (N at least 1) arriving while a
render is in flight leaves the chunk dirty-while-rendering, so that when the
in-flight render completes the chunk is dirty again and the quiescent
scheduler performs exactly one additional render, not N. -/
theorem markDirty_coalesces (n : Nat) (hn : 1 ≤ n) :
    markDirty RenderState.dirty = RenderState.dirty ∧
    markDirty RenderState.dirtyWhileRendering =
      RenderState.dirtyWhileRendering ∧
    markDirty^[n] RenderState.rendering = RenderState.dirtyWhileRendering ∧
    schedulerStep (markDirty^[n] RenderState.rendering) =
      some (SchedulerAction.renderComplete, RenderState.dirty) ∧
    (drain RenderState.dirty).count SchedulerAction.startRender = 1 := by
  obtain ⟨m, rfl⟩ : ∃ m, n = m + 1 := ⟨n - 1, (Nat.succ_pred_eq_of_pos hn).symm⟩
  have hiter : markDirty^[m + 1] RenderState.rendering =
      RenderState.dirtyWhileRendering := by
    rw [Function.iterate_succ_apply, markDirty, markDirty_iterate_absorb]
  refine ⟨rfl, rfl, hiter, ?_, ?_⟩
  · rw [hiter]; rfl
  · rw [drain_dirty]; rfl

/-- Witness for markDirty_coalesces at a burst of 5 calls. -/
theorem markDirty_coalesces_witness :
    1 ≤ 5 ∧
    markDirty^[5] RenderState.rendering = RenderState.dirtyWhileRendering :=
  ⟨by decide, (markDirty_coalesces 5 (by decide)).2.2.1⟩

/-- C6: over every valid event trace of a chunk, the dirty flag is true exactly
when at least one tile write inside the chunk's region is not yet reflected by
a completed render, and every render completion strictly increases the chunk's
version, by exactly one. -/
theorem chunk_dirty_version_invariant (t : List ChunkEvent) (s : ChunkState)
    (h : runEvents t = some s) :
    (s.dirtyFlag = true ↔ 0 < pendingWrites t) ∧
    (∀ s2, applyEvent s ChunkEvent.renderComplete = some s2 →
      s.version < s2.version ∧ s2.version = s.version + 1) := by
  constructor
  · have hinv : PendingInv s (pendingFrom (0, 0) t) :=
      pendingInv_preserved t initialChunkState (0, 0) s
        (by simp [PendingInv, initialChunkState]) h
    unfold pendingWrites ChunkState.dirtyFlag
    cases hrs : s.rs <;> simp [PendingInv, hrs] at hinv <;>
      simp [hrs] <;> omega
  · intro s2 h2
    obtain ⟨rs2, v2⟩ := s2
    unfold applyEvent at h2
    by_cases h1 : s.rs = RenderState.rendering
    · simp [h1] at h2
      obtain ⟨hrs2, hv2⟩ := h2
      simp only []
      omega
    · by_cases hd : s.rs = RenderState.dirtyWhileRendering
      · simp [h1, hd] at h2
        obtain ⟨hrs2, hv2⟩ := h2
        simp only []
        omega
      · simp [h1, hd] at h2

/-- Witness for chunk_dirty_version_invariant on a concrete trace: a write,
a render start, a second write during the render, and the completion. -/
theorem chunk_dirty_version_invariant_witness :
    runEvents [ChunkEvent.tileWritten, ChunkEvent.startRender,
        ChunkEvent.tileWritten, ChunkEvent.renderComplete] =
      some ⟨RenderState.dirty, 1⟩ ∧
    ((ChunkState.mk RenderState.dirty 1).dirtyFlag = true ↔
      0 < pendingWrites [ChunkEvent.tileWritten, ChunkEvent.startRender,
        ChunkEvent.tileWritten, ChunkEvent.renderComplete]) :=
  ⟨by decide,
    (chunk_dirty_version_invariant
      [ChunkEvent.tileWritten, ChunkEvent.startRender,
        ChunkEvent.tileWritten, ChunkEvent.renderComplete]
      ⟨RenderState.dirty, 1⟩ (by decide)).1⟩

/-- C7: deleting a tile with no record is a no-op: the store is unchanged, the
result reports nothing to delete, no chunk is dirtied and no broadcast is
emitted; and two consecutive deletes leave the same store as one, the second
always being such a no-op. -/
theorem delete_idempotent (x y : Nat) (s : TileStore) :
    (s (x, y) = none → deleteTile x y s = (s, DeleteResult.noop, [])) ∧
    (deleteTile x y (deleteTile x y s).1).1 = (deleteTile x y s).1 ∧
    ((deleteTile x y (deleteTile x y s).1).2.1 = DeleteResult.noop ∧
      (deleteTile x y (deleteTile x y s).1).2.2 = []) := by
  cases h : s (x, y) with
  | none =>
    refine ⟨fun _ => by simp [deleteTile, h], ?_, ?_, ?_⟩ <;>
      simp [deleteTile, h]
  | some r =>
    have hgone : (updateStore s (x, y) none) (x, y) = none := by
      simp [updateStore]
    refine ⟨fun hc => absurd hc (by simp), ?_, ?_, ?_⟩ <;>
      simp [deleteTile, h, hgone]

/-- Witness for delete_idempotent on the empty store. -/
theorem delete_idempotent_witness :
    emptyStore (1, 2) = none ∧
    deleteTile 1 2 emptyStore = (emptyStore, DeleteResult.noop, []) :=
  ⟨rfl, (delete_idempotent 1 2 emptyStore).1 rfl⟩

/-- C10: for every 32 by 32 pixel grid, every start coordinate inside the
grid, and every fill color, floodFill (a total function, so the worklist loop
terminates) recolors with the fill color exactly the 4-connected region of
in-bounds pixels whose color equals the start pixel's color, leaves every
other pixel unchanged, and leaves the grid entirely unchanged when the start
pixel's color already equals the fill color. -/
theorem floodFill_spec (g : Grid) (sx sy : Int) (fillColor : RGB)
    (hin : inBounds (sx, sy) = true) :
    (g (sx, sy) = fillColor → floodFill g sx sy fillColor = g) ∧
    (g (sx, sy) ≠ fillColor → ∀ p,
      (Reach g (g (sx, sy)) (sx, sy) p →
        floodFill g sx sy fillColor p = fillColor) ∧
      (¬ Reach g (g (sx, sy)) (sx, sy) p →
        floodFill g sx sy fillColor p = g p)) := by
  constructor
  · intro hsame
    simp [floodFill, hin, hsame]
  · intro hneq
    have hpost := floodLoop_post g (g (sx, sy)) fillColor (sx, sy)
      (cellBox \ (∅ : Finset (Int × Int))).card ∅ [(sx, sy)] g
      (Nat.le_refl _) ⟨?_, ?_, ?_, ?_⟩
    · obtain ⟨P1, P2, P3, P4, P5⟩ := hpost
      have hs : (sx, sy) ∈
          (floodLoop (g (sx, sy)) fillColor g ∅ [(sx, sy)]).2 :=
        P3 (sx, sy) (List.mem_singleton_self _) hin rfl
      have hfl : floodFill g sx sy fillColor =
          (floodLoop (g (sx, sy)) fillColor g ∅ [(sx, sy)]).1 := by
        simp [floodFill, hin, hneq]
      intro p
      constructor
      · intro hreach
        have hmem : p ∈
            (floodLoop (g (sx, sy)) fillColor g ∅ [(sx, sy)]).2 := by
          induction hreach with
          | start h1 h2 => exact hs
          | step hp hadj h1 h2 ih => exact P4 _ ih _ hadj h1 h2
        rw [hfl, P1 p, if_pos hmem]
      · intro hnreach
        have hmem : p ∉
            (floodLoop (g (sx, sy)) fillColor g ∅ [(sx, sy)]).2 :=
          fun hmem => hnreach (P5 p hmem)
        rw [hfl, P1 p, if_neg hmem]
    · intro q
      simp
    · intro c hc
      exact absurd hc (Finset.not_mem_empty c)
    · intro c hc
      exact absurd hc (Finset.not_mem_empty c)
    · intro q hq hbq hg0q
      have hq2 : q = (sx, sy) := List.mem_singleton.mp hq
      subst hq2
      exact Reach.start hin rfl

/-- Witness for floodFill_spec: filling a constant white grid with black from
the origin recolors the origin with black. -/
theorem floodFill_spec_witness :
    inBounds ((0 : Int), (0 : Int)) = true ∧
    ((fun _ => RGB.mk 255 255 255 : Grid) (0, 0) ≠ RGB.mk 0 0 0) ∧
    Reach (fun _ => RGB.mk 255 255 255)
      ((fun _ => RGB.mk 255 255 255 : Grid) (0, 0)) (0, 0) (0, 0) ∧
    floodFill (fun _ => RGB.mk 255 255 255) 0 0 (RGB.mk 0 0 0) (0, 0) =
      RGB.mk 0 0 0 :=
  ⟨by decide, by decide, Reach.start (by decide) rfl,
    ((floodFill_spec (fun _ => RGB.mk 255 255 255) 0 0 (RGB.mk 0 0 0)
        (by decide)).2 (by decide) (0, 0)).1 (Reach.start (by decide) rfl)⟩

end LiveTesserae
